import Mathlib

/-!
Shallow embedding of `src/codes.py`, a multi-threaded client fleet that polls a
remote server for codes. Time values (`time.time()` floats) are modelled as
rationals; the shared `seen_codes` set is a list with membership testing, since
its lock (`seen_lock`) serialises all accesses; the `stop_all` threading.Event
is a boolean that operations may only set to `true`.
-/

namespace Codes

/-- Dedup insertion, embedding the `seen_lock`-guarded region of
`_on_code_response` (src/codes.py lines 113-116): if the code is already in
`seen_codes` nothing happens and the caller is told "already present"
(`false`); otherwise the code is added and the caller is told
"newly accepted" (`true`). -/
def tryInsert (seen : List String) (v : String) : Bool × List String :=
  if v ∈ seen then (false, seen) else (true, v :: seen)

/-- A serialised sequence of dedup insertions (the lock linearises concurrent
calls): returns the per-call (value, result) pairs and the final set. -/
def runInserts : List String → List String → List (String × Bool) × List String
  | seen, [] => ([], seen)
  | seen, v :: vs =>
    let r := tryInsert seen v
    let rest := runInserts r.2 vs
    ((v, r.1) :: rest.1, rest.2)

/-- Number of calls with value `v` that observed "newly accepted". -/
def countAccepted (v : String) (results : List (String × Bool)) : Nat :=
  (results.filter fun r => r.1 == v && r.2).length

/-- Whitespace class of the regex `\s` (ASCII approximation, faithful for the
message strings the server sends). -/
def isSpaceChar (c : Char) : Bool := c.isWhitespace

/-- Numeric value of a nonempty run of decimal digits, as Python's `int`. -/
def digitsToNat (ds : List Char) : Nat :=
  ds.foldl (fun acc c => 10 * acc + (c.toNat - '0'.toNat)) 0

/-- Case-insensitive literal match: `matchCI pat cs` succeeds iff `cs` starts
with `pat` up to lowercasing of the input (the pattern is lowercase). -/
def matchCI : List Char → List Char → Bool
  | [], _ => true
  | _ :: _, [] => false
  | p :: ps, c :: cs => c.toLower == p && matchCI ps cs

/-- Attempt of the pattern `(\d+)\s*seconds?` (IGNORECASE) anchored at the
start of `cs`, returning the captured integer group. The digit run and the
whitespace run are maximal munches: backtracking can never help because a
digit is neither whitespace nor `s`, and whitespace is not `s`. The trailing
optional `s?` never affects acceptance or the captured group, so only the
literal `second` is required after the whitespace. -/
def waitSecondsAt (cs : List Char) : Option Nat :=
  let ds := cs.takeWhile Char.isDigit
  if ds.isEmpty then none
  else
    let rest := (cs.drop ds.length).dropWhile isSpaceChar
    if matchCI "second".toList rest then some (digitsToNat ds) else none

/-- Leftmost search of `(\d+)\s*seconds?` over the character list, as
`re.search` tries successive start positions. -/
def searchWaitAux : List Char → Option Nat
  | [] => none
  | c :: cs =>
    match waitSecondsAt (c :: cs) with
    | some n => some n
    | none => searchWaitAux cs

/-- Embedding of `re.search(r'(\d+)\s*seconds?', msg, flags=re.IGNORECASE)`
followed by `int(m.group(1))` in `_on_code_response`
(src/codes.py lines 127-129). -/
def search_wait_seconds (msg : String) : Option Nat :=
  searchWaitAux msg.data

/-- Process-wide shared state: the dedup set `seen_codes`, the append-only
`codes.txt` log written by `save_codes_to_file`, and the two events
`found_event` and `stop_all`. -/
structure GlobalState where
  seen_codes : List String
  codes_log : List String
  found_event : Bool
  stop_all : Bool
deriving DecidableEq, Repr

/-- Per-agent state of one `ClientWrapper`: its poll schedule
`next_emit_time`, the last advisory kept for diagnostics, the connection flag
and the constructor-supplied `base_interval`. -/
structure AgentState where
  next_emit_time : ℚ
  last_server_message : Option String
  connected : Bool
  base_interval : ℚ
deriving DecidableEq, Repr

/-- The `data` argument of the `codeResponse` handler. `isDict` records
whether the payload is a dict; `success` is the truthiness of
`data.get("success")`; `code` and `message` are `data.get("code")` /
`data.get("message")` with `none` for an absent key (an empty string is falsy
in Python, which the embedding tests explicitly). When `isDict` is `false`
the other fields are never consulted, mirroring the `isinstance` guards. -/
structure ResponseData where
  isDict : Bool
  success : Bool
  code : Option String
  message : Option String
deriving DecidableEq, Repr

/-- Embedding of the `codeResponse` handler `_on_code_response`
(src/codes.py lines 106-135), acting on the global state and the receiving
agent's own state at time `now`. `stop_on_first` is the `STOP_ON_FIRST`
configuration flag read at line 121. The `if not code` guard at line 111 and
the `if msg` guard at line 125 follow Python truthiness, under which an empty
string counts as absent. -/
def on_code_response (stop_on_first : Bool) (now : ℚ) (g : GlobalState)
    (a : AgentState) (data : ResponseData) : GlobalState × AgentState :=
  if data.isDict && data.success then
    match data.code with
    | none => (g, a)
    | some c =>
      if c = "" then (g, a)
      else
        let r := tryInsert g.seen_codes c
        if r.1 then
          ({ g with
              seen_codes := r.2
              codes_log := g.codes_log ++ [c]
              found_event := true
              stop_all := if stop_on_first then true else g.stop_all }, a)
        else (g, a)
  else
    match (if data.isDict then data.message else none) with
    | none => (g, a)
    | some m =>
      if m = "" then (g, a)
      else
        let a1 :=
          match search_wait_seconds m with
          | some s => { a with next_emit_time := now + (s : ℚ) }
          | none => a
        (g, { a1 with last_server_message := some m })

/-- One iteration of the `run_emitter` loop body (src/codes.py lines
160-173). `now` is the `time.time()` read at the top of the iteration, `now2`
the second read used for the reset (real time only moves forward). `emitOk`
records whether the `sio.emit('getCode')` call would raise; the `except:
pass` swallows the failure, so it cannot influence the state. The returned
boolean records whether the zero-payload `getCode` emit was attempted, which
happens exactly when the schedule is due and the client is connected. -/
def run_emitter_iter (a : AgentState) (_emitOk : Bool) (now now2 : ℚ) :
    AgentState × Bool :=
  if a.next_emit_time ≤ now then
    ({ a with next_emit_time := now2 + a.base_interval }, a.connected)
  else (a, false)

/-- Whole-process state: the shared globals plus the `clients` list, one
`AgentState` per `ClientWrapper`. -/
structure SysState where
  global : GlobalState
  agents : List AgentState
deriving DecidableEq, Repr

/-- Labels for the interleaved events of the running fleet: a `codeResponse`
delivered to client `i`, one iteration of client `i`'s `run_emitter` loop,
the `KeyboardInterrupt` handler in `main` (src/codes.py lines 304-306), and a
connect/disconnect callback flipping client `i`'s `connected` flag. -/
inductive StepLabel where
  | response (i : Nat) (data : ResponseData) (now : ℚ)
  | pollIter (i : Nat) (emitOk : Bool) (now now2 : ℚ)
  | interrupt
  | connEvent (i : Nat) (up : Bool)
deriving DecidableEq, Repr

/-- The index of the agent whose per-agent state an event can touch. -/
def touches : StepLabel → Option Nat
  | .response i _ _ => some i
  | .pollIter i _ _ _ => some i
  | .interrupt => none
  | .connEvent i _ => some i

/-- Effect of one event on the whole-process state. Each handler runs inside
one `ClientWrapper`, so it may only rewrite that client's own slot and the
shared globals. -/
def applyLabel (stop_on_first : Bool) (s : SysState) : StepLabel → SysState
  | .response i data now =>
    match s.agents[i]? with
    | none => s
    | some a =>
      let r := on_code_response stop_on_first now s.global a data
      { global := r.1, agents := s.agents.set i r.2 }
  | .pollIter i emitOk now now2 =>
    match s.agents[i]? with
    | none => s
    | some a =>
      { s with agents := s.agents.set i (run_emitter_iter a emitOk now now2).1 }
  | .interrupt => { s with global := { s.global with stop_all := true } }
  | .connEvent i up =>
    match s.agents[i]? with
    | none => s
    | some a => { s with agents := s.agents.set i { a with connected := up } }

/-- Side conditions for an event to occur: a `run_emitter` iteration runs
only while `stop_all.is_set()` is false (the loop guard at line 159), and its
second clock read cannot be earlier than its first. -/
def ValidLabel (s : SysState) : StepLabel → Prop
  | .pollIter _ _ now now2 => s.global.stop_all = false ∧ now ≤ now2
  | _ => True

/-- One interleaved step of the process. -/
def Step (stop_on_first : Bool) (s : SysState) (l : StepLabel)
    (s2 : SysState) : Prop :=
  ValidLabel s l ∧ s2 = applyLabel stop_on_first s l

/-- A finite interleaving of steps of the process. -/
def IsTrace (stop_on_first : Bool) : List SysState → Prop
  | [] => True
  | [_] => True
  | s :: s2 :: rest =>
    (∃ l, Step stop_on_first s l s2) ∧ IsTrace stop_on_first (s2 :: rest)

/-- Number of false-to-true transitions in a boolean sequence. -/
def countFlips : List Bool → Nat
  | a :: b :: rest => (if !a && b then 1 else 0) + countFlips (b :: rest)
  | _ => 0

/-- Whether a `codeResponse` payload carries a throttle advisory the handler
acts on: a dict, falsy success, and a message in which the wait-seconds
pattern is found. -/
def throttles (data : ResponseData) : Bool :=
  data.isDict && !data.success &&
    (match data.message with
     | some m => (search_wait_seconds m).isSome
     | none => false)

/-- The event is an explicit server throttle instruction delivered to agent
`j` — the one situation allowed to pull `next_emit_time` backwards. -/
def IsThrottleReset (l : StepLabel) (j : Nat) : Prop :=
  ∃ data now, l = StepLabel.response j data now ∧ throttles data = true

-- Identity provisioning ----------------------------------------------------

/-- Outcome of one `requests.post(REGISTER_EP)` attempt inside
`register_one`: HTTP 200 with the minted uid as body, a non-200 status, or a
raised exception. -/
inductive AttemptOutcome where
  | httpOk (uid : String)
  | httpFail
  | transportFail
deriving DecidableEq, Repr

/-- Embedding of the `register_one` worker (src/codes.py lines 194-212). The
worker loops: before each attempt it checks `stop_all` (`stop k` is what the
`k`-th check observes) and gives up with `none` when it is set; on a 200 it
returns the uid; otherwise it sleeps and retries. The result pairs the
worker's return value with the number of HTTP calls it made; the outer
`Option` is `none` when the supplied attempt list runs out before the loop
exits (the loop would still be running). -/
def register_one (stop : Nat → Bool) :
    Nat → List AttemptOutcome → Option (Option String × Nat)
  | k, [] => if stop k then some (none, 0) else none
  | k, o :: os =>
    if stop k then some (none, 0)
    else
      match o with
      | .httpOk uid => some (some uid, 1)
      | .httpFail => (register_one stop (k + 1) os).map fun rc => (rc.1, rc.2 + 1)
      | .transportFail => (register_one stop (k + 1) os).map fun rc => (rc.1, rc.2 + 1)

/-- Collects the worker results, propagating an unfinished worker. -/
def collectResults {α : Type} : List (Option α) → Option (List α)
  | [] => some []
  | none :: _ => none
  | some x :: rest => (collectResults rest).map fun xs => x :: xs

/-- Observable outcome of `create_or_load_user_ids`: the returned list, the
number of HTTP registration calls performed, and the list handed to
`save_user_ids_list` (`none` when the cache file is not rewritten). -/
structure ProvisionOutcome where
  returned : List String
  reg_calls : Nat
  saved : Option (List String)
deriving DecidableEq, Repr

/-- Embedding of `create_or_load_user_ids` (src/codes.py lines 182-228). If
the persisted cache already holds enough identities it returns the first
`desired` with no registration call and no file rewrite. Otherwise one
`register_one` task per missing identity runs in the pool; `env i` supplies
worker `i`'s stop-flag observations and attempt outcomes, and the uids are
collected in completion order. The combined list is always passed to
`save_user_ids_list` before the truncated list is returned. -/
def create_or_load_user_ids (env : Nat → (Nat → Bool) × List AttemptOutcome)
    (existing : List String) (desired : Nat) : Option ProvisionOutcome :=
  if desired ≤ existing.length then
    some { returned := existing.take desired, reg_calls := 0, saved := none }
  else
    match collectResults ((List.range (desired - existing.length)).map fun i =>
        register_one (env i).1 0 (env i).2) with
    | none => none
    | some pairs =>
      some { returned := (existing ++ pairs.filterMap Prod.fst).take desired,
             reg_calls := (pairs.map Prod.snd).sum,
             saved := some (existing ++ pairs.filterMap Prod.fst) }

/-- What `main` does with the provisioning result (src/codes.py lines
269-279): on a shortfall it prints the failure and returns before any
`ClientWrapper` is created; otherwise it builds one client per user id. -/
inductive MainOutcome where
  | abortShortfall
  | runFleet (user_ids : List String)
deriving DecidableEq, Repr

/-- Embedding of the shortfall check in `main` (src/codes.py lines 269-272). -/
def main_after_provision (n : Nat) (user_ids : List String) : MainOutcome :=
  if user_ids.length < n then .abortShortfall else .runFleet user_ids

-- Concrete states used to instantiate the theorems --------------------------

/-- Fresh global state at process start. -/
def g0 : GlobalState :=
  { seen_codes := [], codes_log := [], found_event := false, stop_all := false }

/-- A freshly constructed, connected client with `base_interval` 1. -/
def a0 : AgentState :=
  { next_emit_time := 0, last_server_message := none, connected := true,
    base_interval := 1 }

/-- A one-client fleet at process start. -/
def s0 : SysState := { global := g0, agents := [a0] }

/-- The same fleet after the stop flag has been raised. -/
def sStopped : SysState := { global := { g0 with stop_all := true }, agents := [a0] }

/-- A successful discovery payload. -/
def d0 : ResponseData :=
  { isDict := true, success := true, code := some "CODE1", message := none }

/-- A failure payload carrying a 45-second throttle advisory. -/
def dThrottle : ResponseData :=
  { isDict := true, success := false, code := none,
    message := some "please retry in 45 seconds" }

/-- A degenerate success payload with an empty code. -/
def dEmpty : ResponseData :=
  { isDict := true, success := true, code := some "", message := none }

/-- A provisioning environment whose workers all observe the stop flag
already set at their first check. -/
def envStop : Nat → (Nat → Bool) × List AttemptOutcome :=
  fun _ => (fun _ => true, [])

end Codes

namespace Codes

-- Basic dedup lemmas -------------------------------------------------------

theorem tryInsert_mem (seen : List String) (v : String) :
    v ∈ (tryInsert seen v).2 := by
  unfold tryInsert
  by_cases h : v ∈ seen <;> simp [h]

theorem runInserts_mem_mono (seen : List String) (vs : List String)
    (v : String) (h : v ∈ seen) : v ∈ (runInserts seen vs).2 := by
  induction vs generalizing seen with
  | nil => simpa [runInserts] using h
  | cons w ws ih =>
    simp only [runInserts]
    apply ih
    unfold tryInsert
    by_cases hw : w ∈ seen <;> simp [hw, h]

theorem countAccepted_of_mem (seen : List String) (vs : List String)
    (v : String) (h : v ∈ seen) :
    countAccepted v (runInserts seen vs).1 = 0 := by
  induction vs generalizing seen with
  | nil => simp [runInserts, countAccepted]
  | cons w ws ih =>
    simp only [runInserts, countAccepted, List.filter]
    by_cases hwv : w = v
    · subst hwv
      have : (tryInsert seen w).1 = false := by
        unfold tryInsert; simp [h]
      simp only [this, Bool.and_false, List.length_nil]
      have hmem : w ∈ (tryInsert seen w).2 := tryInsert_mem seen w
      simpa [countAccepted] using ih (tryInsert seen w).2 hmem
    · have hne : (w == v) = false := beq_false_of_ne hwv
      simp only [hne, Bool.false_and]
      have hmem : v ∈ (tryInsert seen w).2 := by
        unfold tryInsert
        by_cases hw : w ∈ seen <;> simp [hw, h]
      simpa [countAccepted] using ih (tryInsert seen w).2 hmem

theorem countAccepted_of_not_mem (seen : List String) (vs : List String)
    (v : String) (h : v ∉ seen) :
    countAccepted v (runInserts seen vs).1 = if v ∈ vs then 1 else 0 := by
  induction vs generalizing seen with
  | nil => simp [runInserts, countAccepted]
  | cons w ws ih =>
    simp only [runInserts, countAccepted, List.filter]
    by_cases hwv : w = v
    · subst hwv
      have h1 : (tryInsert seen w).1 = true := by
        unfold tryInsert; simp [h]
      simp only [h1, beq_self_eq_true, Bool.and_true, Bool.true_and]
      have hmem : w ∈ (tryInsert seen w).2 := tryInsert_mem seen w
      have := countAccepted_of_mem (tryInsert seen w).2 ws w hmem
      simp only [countAccepted] at this
      simp [this, List.mem_cons]
    · have hne : (w == v) = false := beq_false_of_ne hwv
      simp only [hne, Bool.false_and]
      have hmem : v ∉ (tryInsert seen w).2 := by
        unfold tryInsert
        by_cases hw : w ∈ seen <;> simp [hw, h, Ne.symm hwv]
      have := ih (tryInsert seen w).2 hmem
      simp only [countAccepted] at this
      simp [this, List.mem_cons, hwv, Ne.symm hwv]

theorem runInserts_mem_of_inserted (seen : List String) (vs : List String)
    (v : String) (h : v ∈ vs) : v ∈ (runInserts seen vs).2 := by
  induction vs generalizing seen with
  | nil => cases h
  | cons w ws ih =>
    simp only [runInserts]
    rcases List.mem_cons.mp h with rfl | hmem
    · exact runInserts_mem_mono _ ws v (tryInsert_mem seen v)
    · exact ih _ hmem

/-- C1: `tryInsert` answers "newly accepted" exactly for the first insertion
of a value: it returns `true` iff the value is not yet present, the value is
present afterwards, and over any serialised sequence of calls the calls with
value `v` observe `true` exactly once when `v` occurs at all (so every other
such call observes "already present"). -/
theorem dedup_first_insert_wins (seen : List String) (v : String)
    (vs : List String) (h : v ∉ seen) :
    ((tryInsert seen v).1 = true ↔ v ∉ seen)
    ∧ v ∈ (tryInsert seen v).2
    ∧ countAccepted v (runInserts seen vs).1 = (if v ∈ vs then 1 else 0)
    ∧ (v ∈ vs → v ∈ (runInserts seen vs).2) := by
  refine ⟨?_, tryInsert_mem seen v, countAccepted_of_not_mem seen vs v h, ?_⟩
  · unfold tryInsert
    by_cases hv : v ∈ seen <;> simp [hv]
  · exact fun hvs => runInserts_mem_of_inserted seen vs v hvs

/-- Closed instance of `dedup_first_insert_wins` at a concrete call
sequence. -/
theorem dedup_first_insert_wins_w :
    ((tryInsert ["x"] "c").1 = true ↔ "c" ∉ ["x"])
    ∧ "c" ∈ (tryInsert ["x"] "c").2
    ∧ countAccepted "c" (runInserts ["x"] ["c", "c", "d", "c"]).1 =
        (if "c" ∈ ["c", "c", "d", "c"] then 1 else 0)
    ∧ ("c" ∈ ["c", "c", "d", "c"] → "c" ∈ (runInserts ["x"] ["c", "c", "d", "c"]).2) :=
  dedup_first_insert_wins ["x"] "c" ["c", "c", "d", "c"] (by decide)

-- Response-handler characterisations ---------------------------------------

theorem ocr_stop_all_cases (sof : Bool) (now : ℚ) (g : GlobalState)
    (a : AgentState) (data : ResponseData) :
    (on_code_response sof now g a data).1.stop_all = g.stop_all
    ∨ (sof = true ∧ (on_code_response sof now g a data).1.stop_all = true) := by
  obtain ⟨dd, ds, dc, dm⟩ := data
  cases dd with
  | false =>
    left
    cases dm with
    | none => rfl
    | some m => rfl
  | true =>
    cases ds with
    | false =>
      left
      cases dm with
      | none => rfl
      | some m => by_cases hm0 : m = "" <;> simp [on_code_response, hm0]
    | true =>
      cases dc with
      | none => left; rfl
      | some c =>
        by_cases hce : c = ""
        · left; simp [on_code_response, hce]
        · by_cases hf : (tryInsert g.seen_codes c).1 = true
          · cases sof with
            | false => left; simp [on_code_response, hce, hf]
            | true => exact Or.inr ⟨rfl, by simp [on_code_response, hce, hf]⟩
          · simp only [Bool.not_eq_true] at hf
            left; simp [on_code_response, hce, hf]

theorem ocr_no_throttle_next_emit (sof : Bool) (now : ℚ) (g : GlobalState)
    (a : AgentState) (data : ResponseData) (h : throttles data = false) :
    (on_code_response sof now g a data).2.next_emit_time = a.next_emit_time := by
  obtain ⟨dd, ds, dc, dm⟩ := data
  cases dd with
  | false => rfl
  | true =>
    cases ds with
    | true =>
      cases dc with
      | none => rfl
      | some c =>
        by_cases hce : c = ""
        · simp [on_code_response, hce]
        · by_cases hf : (tryInsert g.seen_codes c).1 = true
          · simp [on_code_response, hce, hf]
          · simp only [Bool.not_eq_true] at hf
            simp [on_code_response, hce, hf]
    | false =>
      cases dm with
      | none => rfl
      | some m =>
        by_cases hm0 : m = ""
        · simp [on_code_response, hm0]
        · cases hp : search_wait_seconds m with
          | none => simp [on_code_response, hp, hm0]
          | some s =>
            exfalso
            simp [throttles, hp] at h

theorem step_stop_mono (sof : Bool) {s : SysState} {l : StepLabel}
    {s2 : SysState} (h : Step sof s l s2) (hs : s.global.stop_all = true) :
    s2.global.stop_all = true := by
  obtain ⟨-, rfl⟩ := h
  cases l with
  | response i data now =>
    cases hg : s.agents[i]? with
    | none => simpa [applyLabel, hg] using hs
    | some a =>
      simp only [applyLabel, hg]
      rcases ocr_stop_all_cases sof now s.global a data with hc | hc
      · rw [hc]; exact hs
      · exact hc.2
  | pollIter i emitOk now now2 =>
    cases hg : s.agents[i]? with
    | none => simpa [applyLabel, hg] using hs
    | some a => simpa [applyLabel, hg] using hs
  | interrupt => simp [applyLabel]
  | connEvent i up =>
    cases hg : s.agents[i]? with
    | none => simpa [applyLabel, hg] using hs
    | some a => simpa [applyLabel, hg] using hs

theorem trace_stays_true (sof : Bool) :
    ∀ (tr : List SysState) (s : SysState), IsTrace sof (s :: tr) →
      s.global.stop_all = true →
      countFlips ((s :: tr).map fun st => st.global.stop_all) = 0 := by
  intro tr
  induction tr with
  | nil => intro s _ _; rfl
  | cons s2 rest ih =>
    intro s htr hs
    obtain ⟨⟨l, hstep⟩, htr2⟩ := htr
    have hs2 : s2.global.stop_all = true := step_stop_mono sof hstep hs
    have := ih s2 htr2 hs2
    simp only [List.map, countFlips, hs, hs2, Bool.not_true, Bool.false_and,
      if_false, ite_false] at this ⊢
    simpa using this

theorem trace_flips_le_one (sof : Bool) :
    ∀ tr : List SysState, IsTrace sof tr →
      countFlips (tr.map fun st => st.global.stop_all) ≤ 1 := by
  intro tr
  induction tr with
  | nil => intro _; simp [countFlips]
  | cons s rest ih =>
    intro htr
    cases rest with
    | nil => simp [countFlips]
    | cons s2 rest2 =>
      obtain ⟨⟨l, hstep⟩, htr2⟩ := htr
      by_cases hs : s.global.stop_all = true
      · rw [trace_stays_true sof (s2 :: rest2) s ⟨⟨l, hstep⟩, htr2⟩ hs]
        exact Nat.zero_le 1
      · simp only [Bool.not_eq_true] at hs
        by_cases hs2 : s2.global.stop_all = true
        · have h0 := trace_stays_true sof rest2 s2 htr2 hs2
          simp only [List.map, countFlips, hs, hs2, Bool.not_false,
            Bool.true_and, if_true, ite_true] at h0 ⊢
          omega
        · simp only [Bool.not_eq_true] at hs2
          have := ih htr2
          simp only [List.map, countFlips, hs, hs2, Bool.and_false,
            if_false, ite_false] at this ⊢
          simpa using this

/-- C2: the stop flag never goes back from `true` to `false`, flips
false-to-true at most once along any interleaved trace of the fleet, and in
stop-on-first mode a response handler that newly accepts a code leaves the
flag set. -/
theorem stop_flag_monotone_set_once (sof : Bool) :
    (∀ s l s2, Step sof s l s2 →
        s.global.stop_all = true → s2.global.stop_all = true)
    ∧ (∀ tr : List SysState, IsTrace sof tr →
        countFlips (tr.map fun st => st.global.stop_all) ≤ 1)
    ∧ (∀ (now : ℚ) (g : GlobalState) (a : AgentState) (data : ResponseData)
        (c : String), sof = true → data.isDict = true → data.success = true →
        data.code = some c → c ≠ "" → c ∉ g.seen_codes →
        (on_code_response sof now g a data).1.stop_all = true) := by
  refine ⟨fun s l s2 h => step_stop_mono sof h, trace_flips_le_one sof, ?_⟩
  intro now g a data c hsof hd hsucc hcode hne hmem
  obtain ⟨dd, ds, dc, dm⟩ := data
  simp only at hd hsucc hcode
  subst hd hsucc hcode hsof
  have hf : (tryInsert g.seen_codes c).1 = true := by
    unfold tryInsert; simp [hmem]
  simp [on_code_response, hne, hf]

/-- Closed instance of `stop_flag_monotone_set_once`: a concrete interrupt
step from a stopped state, a concrete two-state trace, and a concrete fresh
discovery. -/
theorem stop_flag_monotone_set_once_w :
    (applyLabel true sStopped StepLabel.interrupt).global.stop_all = true
    ∧ countFlips (([s0, applyLabel true s0 StepLabel.interrupt]).map
        fun st => st.global.stop_all) ≤ 1
    ∧ (on_code_response true 0 g0 a0 d0).1.stop_all = true :=
  ⟨(stop_flag_monotone_set_once true).1 sStopped StepLabel.interrupt _
      ⟨trivial, rfl⟩ rfl,
   (stop_flag_monotone_set_once true).2.1
      [s0, applyLabel true s0 StepLabel.interrupt]
      ⟨⟨StepLabel.interrupt, trivial, rfl⟩, trivial⟩,
   (stop_flag_monotone_set_once true).2.2 0 g0 a0 d0 "CODE1" rfl rfl rfl rfl
      (by decide) (List.not_mem_nil _)⟩

/-- C3: a failure response whose advisory message contains the wait-seconds
pattern sets the receiving agent's `next_emit_time` to `now` plus the parsed
number of seconds, and the advisory "please retry in 45 seconds" parses to
45. -/
theorem throttle_advisory_overrides (sof : Bool) (now : ℚ) (g : GlobalState)
    (a : AgentState) (data : ResponseData) (m : String) (s : Nat)
    (hd : data.isDict = true) (hs : data.success = false)
    (hm : data.message = some m) (hp : search_wait_seconds m = some s) :
    (on_code_response sof now g a data).2.next_emit_time = now + (s : ℚ) := by
  obtain ⟨dd, ds, dc, dm⟩ := data
  simp only at hd hs hm
  subst hd hs hm
  have hne : m ≠ "" := by
    intro he
    rw [he] at hp
    rw [(rfl : search_wait_seconds "" = none)] at hp
    cases hp
  simp [on_code_response, hp, hne]

/-- Closed instance of `throttle_advisory_overrides` at the spec's example
advisory. -/
theorem throttle_advisory_overrides_w :
    search_wait_seconds "please retry in 45 seconds" = some 45
    ∧ (on_code_response true 7 g0 a0 dThrottle).2.next_emit_time
        = 7 + ((45 : Nat) : ℚ) :=
  ⟨by rfl,
   throttle_advisory_overrides true 7 g0 a0 dThrottle
     "please retry in 45 seconds" 45 rfl rfl rfl (by rfl)⟩

/-- C4: in a `run_emitter` iteration the `getCode` emit is attempted exactly
when the client is connected and the schedule is due; whenever the schedule
is due, `next_emit_time` is reset to the fresh clock reading plus
`base_interval`, independently of whether the emit is attempted or succeeds;
and an iteration before the due time changes nothing and emits nothing. -/
theorem poll_gate_and_reset (a : AgentState) (emitOk : Bool) (now now2 : ℚ) :
    ((run_emitter_iter a emitOk now now2).2 = true ↔
        (a.connected = true ∧ a.next_emit_time ≤ now))
    ∧ (a.next_emit_time ≤ now →
        (run_emitter_iter a emitOk now now2).1.next_emit_time
          = now2 + a.base_interval)
    ∧ (¬ a.next_emit_time ≤ now →
        (run_emitter_iter a emitOk now now2).1 = a
          ∧ (run_emitter_iter a emitOk now now2).2 = false) := by
  unfold run_emitter_iter
  by_cases h : a.next_emit_time ≤ now <;> simp [h]

/-- Closed instance of `poll_gate_and_reset`: a due, connected client resets
its schedule the same way whether the emit raises or not. -/
theorem poll_gate_and_reset_w :
    ((run_emitter_iter a0 true 0 0).2 = true ↔
        (a0.connected = true ∧ a0.next_emit_time ≤ 0))
    ∧ (run_emitter_iter a0 true 0 0).1.next_emit_time = 0 + a0.base_interval
    ∧ (run_emitter_iter a0 false 0 0).1.next_emit_time = 0 + a0.base_interval :=
  ⟨(poll_gate_and_reset a0 true 0 0).1,
   (poll_gate_and_reset a0 true 0 0).2.1 (le_refl 0),
   (poll_gate_and_reset a0 false 0 0).2.1 (le_refl 0)⟩

/-- C8: with `STOP_ON_FIRST` false, the response handler never changes the
stop flag no matter how many codes it accepts, and the only fleet event that
raises the flag is the external interrupt. -/
theorem continuous_mode_never_stops :
    (∀ (now : ℚ) (g : GlobalState) (a : AgentState) (data : ResponseData),
        (on_code_response false now g a data).1.stop_all = g.stop_all)
    ∧ (∀ s l s2, Step false s l s2 → s2.global.stop_all = true →
        s.global.stop_all = true ∨ l = StepLabel.interrupt) := by
  constructor
  · intro now g a data
    rcases ocr_stop_all_cases false now g a data with hc | hc
    · exact hc
    · exact absurd hc.1 (by decide)
  · intro s l s2 h h2
    obtain ⟨-, rfl⟩ := h
    cases l with
    | response i data now =>
      left
      cases hg : s.agents[i]? with
      | none => simpa [applyLabel, hg] using h2
      | some a =>
        simp only [applyLabel, hg] at h2
        rcases ocr_stop_all_cases false now s.global a data with hc | hc
        · rw [hc] at h2; exact h2
        · exact absurd hc.1 (by decide)
    | pollIter i emitOk now now2 =>
      left
      cases hg : s.agents[i]? with
      | none => simpa [applyLabel, hg] using h2
      | some a => simpa [applyLabel, hg] using h2
    | interrupt => right; rfl
    | connEvent i up =>
      left
      cases hg : s.agents[i]? with
      | none => simpa [applyLabel, hg] using h2
      | some a => simpa [applyLabel, hg] using h2

/-- Closed instance of `continuous_mode_never_stops`: a fresh discovery in
continuous mode leaves the flag down, and the concrete interrupt step is
classified as external cancellation. -/
theorem continuous_mode_never_stops_w :
    (on_code_response false 0 g0 a0 d0).1.stop_all = g0.stop_all
    ∧ (s0.global.stop_all = true ∨ StepLabel.interrupt = StepLabel.interrupt) :=
  ⟨continuous_mode_never_stops.1 0 g0 a0 d0,
   continuous_mode_never_stops.2 s0 StepLabel.interrupt
     (applyLabel false s0 StepLabel.interrupt) ⟨trivial, rfl⟩ rfl⟩

/-- C9: a success payload with an absent or empty code, and a payload with
neither a truthy success flag nor a (nonempty) message — in particular any
non-dict payload — leave the global state and the agent state completely
unchanged. -/
theorem malformed_response_ignored (sof : Bool) (now : ℚ) (g : GlobalState)
    (a : AgentState) (data : ResponseData)
    (h : (data.isDict = true ∧ data.success = true
            ∧ (data.code = none ∨ data.code = some ""))
      ∨ ((data.isDict && data.success) = false
            ∧ ((if data.isDict then data.message else none) = none
                ∨ (if data.isDict then data.message else none) = some ""))) :
    on_code_response sof now g a data = (g, a) := by
  obtain ⟨dd, ds, dc, dm⟩ := data
  rcases h with ⟨hd, hs, hc⟩ | ⟨hds, hm⟩
  · simp only at hd hs
    subst hd hs
    rcases hc with hc | hc <;> (simp only at hc; subst hc; simp [on_code_response])
  · simp only at hds
    rcases hm with hm | hm <;> simp [on_code_response, hds, hm]

/-- Closed instance of `malformed_response_ignored` at a success payload with
an empty code. -/
theorem malformed_response_ignored_w :
    on_code_response true 0 g0 a0 dEmpty = (g0, a0) :=
  malformed_response_ignored true 0 g0 a0 dEmpty
    (Or.inl ⟨rfl, rfl, Or.inr rfl⟩)

-- Per-agent ownership and schedule monotonicity ----------------------------

theorem getElem?_set_of_some {α : Type} {l : List α} {j : Nat} {a x : α}
    (ha : l[j]? = some a) : (l.set j x)[j]? = some x := by
  rw [List.getElem?_set_self', ha]
  rfl

theorem step_frame (sof : Bool) (s : SysState) (l : StepLabel) (s2 : SysState)
    (j : Nat) (h : Step sof s l s2) (hj : touches l ≠ some j) :
    s2.agents[j]? = s.agents[j]? := by
  obtain ⟨-, rfl⟩ := h
  cases l with
  | response i data now =>
    have hij : i ≠ j := fun he => hj (by simp [touches, he])
    cases hg : s.agents[i]? with
    | none => simp [applyLabel, hg]
    | some a => simp [applyLabel, hg, List.getElem?_set_ne hij]
  | pollIter i emitOk now now2 =>
    have hij : i ≠ j := fun he => hj (by simp [touches, he])
    cases hg : s.agents[i]? with
    | none => simp [applyLabel, hg]
    | some a => simp [applyLabel, hg, List.getElem?_set_ne hij]
  | interrupt => rfl
  | connEvent i up =>
    have hij : i ≠ j := fun he => hj (by simp [touches, he])
    cases hg : s.agents[i]? with
    | none => simp [applyLabel, hg]
    | some a => simp [applyLabel, hg, List.getElem?_set_ne hij]

/-- C7: an agent's slot is changed only by events addressed to that agent
(no cross-agent mutation), and across every fleet event the agent's
`next_emit_time` is non-decreasing, the only exception being a response
carrying an explicit server throttle instruction for that agent. -/
theorem next_poll_owned_monotone (sof : Bool) :
    (∀ s l s2 j, Step sof s l s2 → touches l ≠ some j →
        s2.agents[j]? = s.agents[j]?)
    ∧ (∀ s l s2 j a a2, Step sof s l s2 →
        s.agents[j]? = some a → s2.agents[j]? = some a2 →
        0 ≤ a.base_interval →
        IsThrottleReset l j ∨ a.next_emit_time ≤ a2.next_emit_time) := by
  constructor
  · exact fun s l s2 j h hj => step_frame sof s l s2 j h hj
  · intro s l s2 j a a2 h ha ha2 hbase
    by_cases hj : touches l = some j
    case neg =>
      rw [step_frame sof s l s2 j h hj, ha] at ha2
      right
      injection ha2 with h2
      rw [h2]
    case pos =>
      obtain ⟨hv, rfl⟩ := h
      cases l with
      | response i data now =>
        simp only [touches, Option.some.injEq] at hj
        subst hj
        simp only [applyLabel, ha] at ha2
        rw [getElem?_set_of_some ha] at ha2
        injection ha2 with h2
        by_cases ht : throttles data = true
        · exact Or.inl ⟨data, now, rfl, ht⟩
        · right
          have ht2 : throttles data = false := by simpa using ht
          rw [← h2, ocr_no_throttle_next_emit sof now s.global a data ht2]
      | pollIter i emitOk now now2 =>
        simp only [touches, Option.some.injEq] at hj
        subst hj
        simp only [applyLabel, ha] at ha2
        rw [getElem?_set_of_some ha] at ha2
        injection ha2 with h2
        right
        rw [← h2]
        unfold run_emitter_iter
        by_cases hd : a.next_emit_time ≤ now
        · simp only [hd, if_pos]
          have hnn : now ≤ now2 := hv.2
          calc a.next_emit_time ≤ now := hd
            _ ≤ now2 := hnn
            _ ≤ now2 + a.base_interval := by linarith
        · simp [hd]
      | interrupt => simp [touches] at hj
      | connEvent i up =>
        simp only [touches, Option.some.injEq] at hj
        subst hj
        simp only [applyLabel, ha] at ha2
        rw [getElem?_set_of_some ha] at ha2
        injection ha2 with h2
        right
        rw [← h2]

/-- Closed instance of `next_poll_owned_monotone`: the interrupt touches no
agent slot, and a due poll iteration moves the schedule forward. -/
theorem next_poll_owned_monotone_w :
    (applyLabel true s0 StepLabel.interrupt).agents[0]? = s0.agents[0]?
    ∧ (IsThrottleReset (StepLabel.pollIter 0 true 0 0) 0
        ∨ a0.next_emit_time ≤ (run_emitter_iter a0 true 0 0).1.next_emit_time) :=
  ⟨(next_poll_owned_monotone true).1 s0 StepLabel.interrupt _ 0 ⟨trivial, rfl⟩
      (by simp [touches]),
   (next_poll_owned_monotone true).2 s0 (StepLabel.pollIter 0 true 0 0) _ 0 a0
      (run_emitter_iter a0 true 0 0).1 ⟨⟨rfl, le_refl 0⟩, rfl⟩ rfl
      (getElem?_set_of_some rfl) (by norm_num [a0])⟩

-- Identity provisioning ----------------------------------------------------

/-- C5: when the persisted cache already holds at least `desired` identities,
`create_or_load_user_ids` returns the first `desired` cached identities (a
full-length result), performs zero registration calls, and does not rewrite
the cache file — independently of the network environment. -/
theorem acquire_fast_path (env : Nat → (Nat → Bool) × List AttemptOutcome)
    (existing : List String) (desired : Nat) (h : desired ≤ existing.length) :
    create_or_load_user_ids env existing desired
      = some { returned := existing.take desired, reg_calls := 0, saved := none }
    ∧ (existing.take desired).length = desired := by
  constructor
  · simp [create_or_load_user_ids, h]
  · simp [List.length_take, min_eq_left h]

/-- Closed instance of `acquire_fast_path` on a three-element cache. -/
theorem acquire_fast_path_w :
    create_or_load_user_ids envStop ["u1", "u2", "u3"] 2
      = some { returned := ["u1", "u2", "u3"].take 2, reg_calls := 0,
               saved := none }
    ∧ (["u1", "u2", "u3"].take 2).length = 2 :=
  acquire_fast_path envStop ["u1", "u2", "u3"] 2 (by decide)

/-- C6: if provisioning ends short of `desired` (as when the stop flag fired
mid-provisioning), the returned list is exactly the persisted combined list —
the subset obtained so far — and `main` aborts before creating any client. -/
theorem provision_shortfall_aborts
    (env : Nat → (Nat → Bool) × List AttemptOutcome) (existing : List String)
    (desired : Nat) (out : ProvisionOutcome)
    (h : create_or_load_user_ids env existing desired = some out)
    (hlt : out.returned.length < desired) :
    out.saved = some out.returned
    ∧ main_after_provision desired out.returned = MainOutcome.abortShortfall := by
  refine ⟨?_, by simp [main_after_provision, hlt]⟩
  unfold create_or_load_user_ids at h
  by_cases hfast : desired ≤ existing.length
  · rw [if_pos hfast] at h
    obtain rfl := Option.some.inj h
    exfalso
    simp only [List.length_take] at hlt
    omega
  · rw [if_neg hfast] at h
    cases hcol : collectResults ((List.range (desired - existing.length)).map
        fun i => register_one (env i).1 0 (env i).2) with
    | none => rw [hcol] at h; cases h
    | some pairs =>
      rw [hcol] at h
      obtain rfl := Option.some.inj h
      simp only [List.length_take] at hlt
      have hle : (existing ++ pairs.filterMap Prod.fst).length ≤ desired := by
        omega
      simp only [List.take_of_length_le hle]

/-- Closed instance of `provision_shortfall_aborts`: every worker observes
the stop flag at once, so a one-element cache cannot reach two identities. -/
theorem provision_shortfall_aborts_w :
    (ProvisionOutcome.mk ["a"] 0 (some ["a"])).saved
        = some (ProvisionOutcome.mk ["a"] 0 (some ["a"])).returned
    ∧ main_after_provision 2 (ProvisionOutcome.mk ["a"] 0 (some ["a"])).returned
        = MainOutcome.abortShortfall :=
  provision_shortfall_aborts envStop ["a"] 2 ⟨["a"], 0, some ["a"]⟩
    (by rfl) (by decide)

/-- C10: whenever `create_or_load_user_ids` takes the provisioning path (the
cache was short), the combined list — previously cached identities plus every
identity minted before the workers stopped — is handed to
`save_user_ids_list`, the returned list is its `desired`-prefix, and in every
case the returned list never exceeds `desired` elements. -/
theorem stop_cut_persists_combined
    (env : Nat → (Nat → Bool) × List AttemptOutcome) (existing : List String)
    (desired : Nat) (out : ProvisionOutcome)
    (h : create_or_load_user_ids env existing desired = some out) :
    out.returned.length ≤ desired
    ∧ (existing.length < desired →
        ∃ minted, out.saved = some (existing ++ minted)
          ∧ out.returned = (existing ++ minted).take desired) := by
  unfold create_or_load_user_ids at h
  by_cases hfast : desired ≤ existing.length
  · rw [if_pos hfast] at h
    obtain rfl := Option.some.inj h
    constructor
    · simp only [List.length_take]
      omega
    · intro hlt
      omega
  · rw [if_neg hfast] at h
    cases hcol : collectResults ((List.range (desired - existing.length)).map
        fun i => register_one (env i).1 0 (env i).2) with
    | none => rw [hcol] at h; cases h
    | some pairs =>
      rw [hcol] at h
      obtain rfl := Option.some.inj h
      refine ⟨?_, fun _ => ⟨pairs.filterMap Prod.fst, rfl, rfl⟩⟩
      simp only [List.length_take]
      omega

/-- Closed instance of `stop_cut_persists_combined`: a stopped provisioning
run persists exactly the prior cache and returns it in full. -/
theorem stop_cut_persists_combined_w :
    (ProvisionOutcome.mk ["b"] 0 (some ["b"])).returned.length ≤ 3
    ∧ ((["b"] : List String).length < 3 →
        ∃ minted, (ProvisionOutcome.mk ["b"] 0 (some ["b"])).saved
            = some (["b"] ++ minted)
          ∧ (ProvisionOutcome.mk ["b"] 0 (some ["b"])).returned
            = (["b"] ++ minted).take 3) :=
  stop_cut_persists_combined envStop ["b"] 3 ⟨["b"], 0, some ["b"]⟩ (by rfl)

end Codes
